import Mathlib

/-!
Formal model of the KAVACH transaction-analytics pipeline
(ingestion.py, features.py, app.py, insights.py), shallowly embedded in Lean.

Conventions of the embedding:
* pandas cell values are modelled by the inductive type Val (null / numeric /
  string / datetime); floats are modelled by Rat (the programs only do exact
  field arithmetic on them, apart from square roots, see ratSqrt below);
* a DataFrame is a list of named columns (column-major), in column order;
* machine NaN / NaT are modelled by Val.null resp. Option.none;
* Python str.strip / str.lower are modelled on ASCII (all column names and
  constants appearing in the source are ASCII).
-/

namespace Kavach

/-! ## Python string primitives (str.strip, str.lower) -/

/-- Python whitespace characters recognised by str.strip. -/
def pySpace (c : Char) : Bool :=
  c = ' ' || c = '\t' || c = '\n' || c = '\r' || c = '\x0b' || c = '\x0c'

/-- ASCII model of Python str.lower on a single character. -/
def pyCharLower (c : Char) : Char :=
  if 65 ≤ c.toNat ∧ c.toNat ≤ 90 then Char.ofNat (c.toNat + 32) else c

/-- Python str.strip: drop whitespace from both ends. -/
def pyStrip (cs : List Char) : List Char :=
  ((cs.dropWhile pySpace).reverse.dropWhile pySpace).reverse

/-- Python str.lower over a whole string (character list). -/
def pyLower (cs : List Char) : List Char :=
  cs.map pyCharLower

/-- Model of the Python expression str(c).strip().lower() used on one column
name in ingestion._normalize_columns. -/
def normName (s : String) : String :=
  String.mk (pyLower (pyStrip s.toList))

/-- ingestion._normalize_columns: strip and lower-case every column name.
The source performs no de-duplication. -/
def normalizeColumns (columns : List String) : List String :=
  columns.map normName

theorem pyCharLower_fixed (n : Nat) (h1 : 65 ≤ n) (h2 : n ≤ 90) :
    pyCharLower (Char.ofNat (n + 32)) = Char.ofNat (n + 32) := by
  interval_cases n <;> decide

theorem pyCharLower_idem (c : Char) : pyCharLower (pyCharLower c) = pyCharLower c := by
  by_cases h : 65 ≤ c.toNat ∧ c.toNat ≤ 90
  · have h1 : pyCharLower c = Char.ofNat (c.toNat + 32) := by
      unfold pyCharLower
      rw [if_pos h]
    rw [h1]
    exact pyCharLower_fixed c.toNat h.1 h.2
  · have h1 : pyCharLower c = c := by
      unfold pyCharLower
      rw [if_neg h]
    rw [h1, h1]

theorem pySpace_pyCharLower (c : Char) : pySpace (pyCharLower c) = pySpace c := by
  by_cases h : 65 ≤ c.toNat ∧ c.toNat ≤ 90
  · have h1 : pyCharLower c = Char.ofNat (c.toNat + 32) := by
      unfold pyCharLower
      rw [if_pos h]
    have hc : pySpace c = false := by
      cases hp : pySpace c with
      | false => rfl
      | true =>
        exfalso
        unfold pySpace at hp
        simp only [Bool.or_eq_true, decide_eq_true_eq] at hp
        rcases hp with ((((hp | hp) | hp) | hp) | hp) | hp <;>
          (subst hp; revert h; decide)
    have hl : pySpace (Char.ofNat (c.toNat + 32)) = false := by
      obtain ⟨h1, h2⟩ := h
      set n := c.toNat with hn
      clear_value n
      interval_cases n <;> decide
    rw [h1, hl, hc]
  · have h1 : pyCharLower c = c := by
      unfold pyCharLower
      rw [if_neg h]
    rw [h1]

theorem dropWhile_dropWhile (p : α → Bool) (l : List α) :
    (l.dropWhile p).dropWhile p = l.dropWhile p := by
  induction l with
  | nil => rfl
  | cons a l ih =>
    by_cases hp : p a = true
    · rw [List.dropWhile_cons_of_pos hp, ih]
    · rw [List.dropWhile_cons_of_neg (by simpa using hp),
        List.dropWhile_cons_of_neg (by simpa using hp)]

theorem getLast?_dropWhile (p : α → Bool) (l : List α)
    (h : l.dropWhile p ≠ []) : (l.dropWhile p).getLast? = l.getLast? := by
  induction l with
  | nil => simp at h
  | cons a l ih =>
    by_cases hp : p a = true
    · rw [List.dropWhile_cons_of_pos hp] at h ⊢
      have hl : l ≠ [] := by
        intro he
        apply h
        rw [he]
        rfl
      rw [ih h]
      cases l with
      | nil => exact absurd rfl hl
      | cons b t => rw [List.getLast?_cons_cons]
    · rw [List.dropWhile_cons_of_neg (by simpa using hp)]

theorem head_dropWhile_neg (p : α → Bool) (l : List α) (a : α) (t : List α)
    (h : l.dropWhile p = a :: t) : p a = false := by
  induction l with
  | nil => simp at h
  | cons b l ih =>
    by_cases hp : p b = true
    · rw [List.dropWhile_cons_of_pos hp] at h
      exact ih h
    · rw [List.dropWhile_cons_of_neg (by simpa using hp)] at h
      cases h
      simpa using hp

theorem dropWhile_eq_self_of_head (p : α → Bool) (l : List α)
    (h : ∀ a t, l = a :: t → p a = false) : l.dropWhile p = l := by
  cases l with
  | nil => rfl
  | cons a t =>
    rw [List.dropWhile_cons_of_neg]
    simp [h a t rfl]

theorem pyStrip_idem (cs : List Char) : pyStrip (pyStrip cs) = pyStrip cs := by
  unfold pyStrip
  set u := cs.dropWhile pySpace with hu
  set w := u.reverse.dropWhile pySpace with hw
  -- the inner strip result is w.reverse; show both dropWhiles on it are no-ops
  have hfront : w.reverse.dropWhile pySpace = w.reverse := by
    apply dropWhile_eq_self_of_head
    intro a t ha
    -- a is the last element of w; w is a suffix-style dropWhile of u.reverse
    -- whose last element is the head of u, which does not satisfy pySpace
    have hwne : w ≠ [] := by
      intro he
      rw [he] at ha
      simp at ha
    have hlast : w.getLast? = u.reverse.getLast? := by
      rw [hw]
      exact getLast?_dropWhile _ _ (by rw [← hw]; exact hwne)
    have hrev : w.reverse.head? = some a := by
      rw [ha]
      rfl
    have hga : w.getLast? = some a := by
      rw [← List.head?_reverse, hrev]
    have hur : u.reverse.getLast? = u.head? := List.getLast?_reverse u
    rw [hga, hur] at hlast
    cases hu2 : u with
    | nil =>
      rw [hu2] at hlast
      simp at hlast
    | cons b t2 =>
      rw [hu2] at hlast
      simp only [List.head?_cons, Option.some.injEq] at hlast
      rw [hlast]
      exact head_dropWhile_neg pySpace cs b t2 (by rw [← hu, hu2])
  rw [hfront, List.reverse_reverse, hw, dropWhile_dropWhile]

theorem pyStrip_map_lower (cs : List Char) :
    pyStrip (pyLower cs) = pyLower (pyStrip cs) := by
  unfold pyStrip pyLower
  have hcomp : ∀ l : List Char,
      (l.map pyCharLower).dropWhile pySpace
        = (l.dropWhile pySpace).map pyCharLower := by
    intro l
    induction l with
    | nil => rfl
    | cons a l ih =>
      by_cases hp : pySpace a = true
      · have hp2 : pySpace (pyCharLower a) = true := by
          rw [pySpace_pyCharLower, hp]
        rw [List.map_cons, List.dropWhile_cons_of_pos hp2,
          List.dropWhile_cons_of_pos hp, ih]
      · have hp2 : ¬ pySpace (pyCharLower a) = true := by
          rw [pySpace_pyCharLower]
          exact hp
        rw [List.map_cons, List.dropWhile_cons_of_neg hp2,
          List.dropWhile_cons_of_neg hp, List.map_cons]
  rw [hcomp, ← List.map_reverse, hcomp, ← List.map_reverse]

theorem pyLower_idem (cs : List Char) : pyLower (pyLower cs) = pyLower cs := by
  unfold pyLower
  rw [List.map_map]
  exact List.map_congr_left (fun a _ => pyCharLower_idem a)

theorem normName_idem (s : String) : normName (normName s) = normName s := by
  unfold normName
  have hmk : (String.mk (pyLower (pyStrip s.toList))).toList
      = pyLower (pyStrip s.toList) := rfl
  rw [hmk, pyStrip_map_lower, pyLower_idem, pyStrip_idem]

/-! ## ingestion._coerce_numeric -/

/-- The per-character replacements done by ingestion._coerce_numeric:
strip commas and the currency symbols, and read an opening parenthesis as a
minus sign (a closing one is dropped). -/
def coerceChars (cs : List Char) : List Char :=
  cs.filterMap (fun c =>
    if c = ',' || c = ')' || c = '₹' || c = '$' || c = '€' || c = '£' then none
    else if c = '(' then some '-'
    else some c)

def digitsToNat (cs : List Char) : Nat :=
  cs.foldl (fun acc c => acc * 10 + (c.toNat - 48)) 0

/-- Parser for an unsigned decimal literal (digits with an optional single
fraction part), the subset of pandas.to_numeric handling exercised by the
program and its documented amount formats. -/
def parseUnsigned (cs : List Char) : Option Rat :=
  let intPart := cs.takeWhile Char.isDigit
  let rest := cs.dropWhile Char.isDigit
  match rest with
  | [] =>
    if intPart.isEmpty then none
    else some (digitsToNat intPart : Rat)
  | '.' :: fr =>
    if fr.all Char.isDigit ∧ (intPart ≠ [] ∨ fr ≠ []) then
      some ((digitsToNat intPart : Rat)
        + (digitsToNat fr : Rat) / ((10 : Rat) ^ fr.length))
    else none
  | _ => none

/-- Model of float parsing with errors="coerce": optional sign then an
unsigned decimal literal; anything else becomes null. -/
def parseFloat (cs : List Char) : Option Rat :=
  match cs with
  | '-' :: rest => (parseUnsigned rest).map Neg.neg
  | '+' :: rest => parseUnsigned rest
  | _ => parseUnsigned cs

/-- ingestion._coerce_numeric on a single string cell: the chain of
str.replace calls followed by pandas.to_numeric with errors="coerce". -/
def coerceNumericStr (s : String) : Option Rat :=
  parseFloat (pyStrip (coerceChars s.toList))

/-! ## features.engineer_transaction_features

The canonical transaction table is modelled as a list of typed rows (the
canonical six-column schema produced by the Schema Normalizer: the claims
about the Feature Engineer quantify over canonical tables, which carry no
extra label column, so the label-folding branch of the source is vacuous).
Timestamps are absolute seconds; a null timestamp (NaT) is Option.none and
its row is dropped, as in the source. pandas sort_values uses an unstable
quicksort; it is modelled by insertion sort, a particular implementation of
the unspecified tie order, which no claim observes. -/

/-- One canonical transaction row. -/
structure CanonRow where
  user_id : String
  ts : Option Nat
  amount : Rat
  category : String
  merchant : String
  country : String
deriving DecidableEq, Repr

/-- A canonical row whose timestamp survived to_datetime coercion. -/
structure SRow where
  user_id : String
  ts : Nat
  amount : Rat
  category : String
  merchant : String
  country : String
deriving DecidableEq, Repr

instance : Inhabited SRow :=
  ⟨⟨"", 0, 0, "", "", ""⟩⟩

/-- dropna(subset=[timestamp]) after to_datetime coercion. -/
def dropBadTs (rows : List CanonRow) : List SRow :=
  rows.filterMap (fun r =>
    r.ts.map (fun t => ⟨r.user_id, t, r.amount, r.category, r.merchant, r.country⟩))

/-- Lexicographic comparison of character lists by code point, the order
Python uses on strings. -/
def charListLt : List Char → List Char → Bool
  | [], [] => false
  | [], _ :: _ => true
  | _ :: _, [] => false
  | a :: as, b :: bs => if a < b then true else if b < a then false else charListLt as bs

/-- Python string comparison (lexicographic by code point). -/
def strLt (a b : String) : Bool :=
  charListLt a.toList b.toList

/-- The (user_id, timestamp) sort order of features._sort_by_user_time. -/
def rowOrder (a b : SRow) : Prop :=
  strLt a.user_id b.user_id = true ∨ (a.user_id = b.user_id ∧ a.ts ≤ b.ts)

instance : DecidableRel rowOrder := fun a b => by
  unfold rowOrder
  infer_instance

/-- features._sort_by_user_time. -/
def sortByUserTime (rows : List SRow) : List SRow :=
  rows.insertionSort rowOrder

/-- Calendar date of an absolute-seconds timestamp (Series.dt.date). -/
def txDate (t : Nat) : Nat :=
  t / 86400

/-- Number of transactions of one user on one calendar date, over the whole
table: groupby([user_id, tx_date]).transform("count") at such a row. -/
def userDayCount (rows : List SRow) (u : String) (d : Nat) : Nat :=
  (rows.filter (fun x => x.user_id == u && txDate x.ts == d)).length

/-- pandas Series.quantile(0.9) with the default linear interpolation:
position 0.9 * (n - 1) in the ascending sort, interpolating between the two
neighbouring order statistics. An empty series yields NaN in pandas, which
only feeds max(5.0, nan) = 5.0 there; modelled as 0, giving the same
threshold. -/
def quantile09 (l : List Rat) : Rat :=
  let s := l.insertionSort (· ≤ ·)
  if s.length = 0 then 0
  else
    let i := (9 * (s.length - 1)) / 10
    let frac : Rat := ((9 * (s.length - 1) : Nat) : Rat) / 10 - ((i : Nat) : Rat)
    let vi := s.getD i 0
    let vi1 := s.getD (i + 1) vi
    vi + frac * (vi1 - vi)

/-- The per-transaction velocity series user_tx_velocity_per_day, one entry
per row of the table. -/
def velocitySeries (rows : List SRow) : List Rat :=
  rows.map (fun r => (userDayCount rows r.user_id (txDate r.ts) : Rat))

/-- The source's velocity threshold:
max(5.0, df[user_tx_velocity_per_day].quantile(0.9)) — the quantile of the
per-ROW series (each user-day count weighted by its number of rows). -/
def velocityThreshold (rows : List SRow) : Rat :=
  max 5 (quantile09 (velocitySeries rows))

/-- Amounts of the trailing rolling window at row index i: the last (at
most) 10 amounts of the same user, up to and including row i, in
(user, time)-sorted row order. -/
def windowAmounts (rows : List SRow) (i : Nat) : List Rat :=
  let r := rows.getD i default
  ((((rows.take (i + 1)).filter (fun x => x.user_id == r.user_id)).map
    SRow.amount).reverse).take 10

/-- 1-based position of row i inside its user group (number of same-user
rows up to and including i). -/
def userPos (rows : List SRow) (i : Nat) : Nat :=
  ((rows.take (i + 1)).filter
    (fun x => x.user_id == (rows.getD i default).user_id)).length

/-- Exact square root on Rat. The real square root of a rational that is
not a perfect square is irrational, hence not representable in Rat; this
model returns it exactly on perfect squares and 0 elsewhere. No theorem in
this file inspects a standard deviation outside the perfect-square case
(the claims only look at zero variances and at nullness). -/
def ratSqrt (q : Rat) : Rat :=
  if q ≤ 0 then 0
  else
    let sn := Nat.sqrt q.num.toNat
    let sd := Nat.sqrt q.den
    if sn * sn = q.num.toNat ∧ sd * sd = q.den then (sn : Rat) / (sd : Rat)
    else 0

/-- groupby(user_id).rolling(10, min_periods=3).mean() at row i: null until
the window holds at least 3 observations. -/
def rollingMean (rows : List SRow) (i : Nat) : Option Rat :=
  let w := windowAmounts rows i
  if 3 ≤ w.length then some (w.sum / (w.length : Rat)) else none

/-- groupby(user_id).rolling(10, min_periods=3).std() at row i (sample
standard deviation, ddof = 1). -/
def rollingStd (rows : List SRow) (i : Nat) : Option Rat :=
  let w := windowAmounts rows i
  if 3 ≤ w.length then
    let m := w.sum / (w.length : Rat)
    some (ratSqrt ((w.map (fun x => (x - m) ^ 2)).sum / ((w.length - 1 : Nat) : Rat)))
  else none

/-- The epsilon guarding the z-score denominator. -/
def scoreEps : Rat :=
  1 / 1000000

/-- zscore_amount = (amount - rolling_mean) / (rolling_std.fillna(0) + eps);
null (NaN) whenever the rolling mean is null. -/
def zscoreAt (rows : List SRow) (i : Nat) : Option Rat :=
  (rollingMean rows i).map (fun m =>
    ((rows.getD i default).amount - m) / ((rollingStd rows i).getD 0 + scoreEps))

/-- is_amount_anomaly = zscore.abs() > 3.0; a NaN z-score compares False. -/
def anomalyAt (rows : List SRow) (i : Nat) : Bool :=
  ((zscoreAt rows i).map (fun z => decide (3 < |z|))).getD false

/-- groupby(user_id).country.shift(1) at row i. -/
def prevCountry (rows : List SRow) (i : Nat) : Option String :=
  (((rows.take i).filter
    (fun x => x.user_id == (rows.getD i default).user_id)).getLast?).map SRow.country

/-- One feature-augmented transaction row. -/
structure FeatRow where
  user_id : String
  ts : Nat
  amount : Rat
  category : String
  merchant : String
  country : String
  user_cumulative_spend : Rat
  user_category_spend : Rat
  tx_date : Nat
  user_tx_velocity_per_day : Nat
  velocity_flag : Bool
  rolling_mean_amount : Option Rat
  rolling_std_amount : Option Rat
  zscore_amount : Option Rat
  is_amount_anomaly : Bool
  prev_country : Option String
  country_changed : Bool
  rule_based_fraud_flag : Bool
deriving DecidableEq, Repr

/-- The feature columns computed for the sorted row at index i. -/
def mkFeatRow (rows : List SRow) (thr : Rat) (i : Nat) : FeatRow :=
  let r := rows.getD i default
  let anomaly := anomalyAt rows i
  let changed :=
    match prevCountry rows i with
    | some c => decide (c ≠ r.country)
    | none => false
  ⟨r.user_id, r.ts, r.amount, r.category, r.merchant, r.country,
    (((rows.take (i + 1)).filter (fun x => x.user_id == r.user_id)).map
      SRow.amount).sum,
    (((rows.take (i + 1)).filter
      (fun x => x.user_id == r.user_id && x.category == r.category)).map
      SRow.amount).sum,
    txDate r.ts,
    userDayCount rows r.user_id (txDate r.ts),
    decide (thr < (userDayCount rows r.user_id (txDate r.ts) : Rat)),
    rollingMean rows i,
    rollingStd rows i,
    zscoreAt rows i,
    anomaly,
    prevCountry rows i,
    changed,
    anomaly || changed⟩

/-- features.engineer_transaction_features on a canonical table. -/
def engineerTransactionFeatures (input : List CanonRow) : List FeatRow :=
  let rows := sortByUserTime (dropBadTs input)
  let thr := velocityThreshold rows
  (List.range rows.length).map (fun i => mkFeatRow rows thr i)

/-- Reference reading of claim C3: the 90th percentile over the multiset of
per-user-per-day counts, one entry per distinct (user, day) pair of the
table. (The source instead takes the quantile of the per-row series.) -/
def specUserDayCounts (rows : List SRow) : List Rat :=
  ((rows.map (fun r => (r.user_id, txDate r.ts))).dedup).map
    (fun p => (userDayCount rows p.1 p.2 : Rat))

/-- The velocity threshold that claim C3 describes. -/
def specVelocityThreshold (rows : List SRow) : Rat :=
  max 5 (quantile09 (specUserDayCounts rows))

instance : Inhabited FeatRow :=
  ⟨⟨"", 0, 0, "", "", "", 0, 0, 0, 0, false, none, none, none, false, none,
    false, false⟩⟩

/-- Positional description of the engineered output. -/
theorem engineer_getD (input : List CanonRow) (i : Nat)
    (hi : i < (engineerTransactionFeatures input).length) :
    (engineerTransactionFeatures input).getD i default
      = mkFeatRow (sortByUserTime (dropBadTs input))
          (velocityThreshold (sortByUserTime (dropBadTs input))) i := by
  unfold engineerTransactionFeatures at hi ⊢
  rw [List.getD_eq_getElem?_getD, List.getElem?_map]
  rw [List.length_map, List.length_range] at hi
  rw [List.getElem?_range hi]
  rfl

theorem engineer_length (input : List CanonRow) :
    (engineerTransactionFeatures input).length
      = (sortByUserTime (dropBadTs input)).length := by
  unfold engineerTransactionFeatures
  rw [List.length_map, List.length_range]

theorem windowAmounts_length (rows : List SRow) (i : Nat) :
    (windowAmounts rows i).length = min 10 (userPos rows i) := by
  unfold windowAmounts userPos
  rw [List.length_take, List.length_reverse, List.length_map]

theorem rollingMean_eq_none_iff (rows : List SRow) (i : Nat) :
    rollingMean rows i = none ↔ userPos rows i < 3 := by
  unfold rollingMean
  by_cases h : 3 ≤ (windowAmounts rows i).length
  · rw [if_pos h]
    rw [windowAmounts_length] at h
    simp only [reduceCtorEq, false_iff, not_lt]
    omega
  · rw [if_neg h]
    rw [windowAmounts_length] at h
    simp only [true_iff]
    omega

theorem rollingStd_eq_none_iff (rows : List SRow) (i : Nat) :
    rollingStd rows i = none ↔ userPos rows i < 3 := by
  unfold rollingStd
  by_cases h : 3 ≤ (windowAmounts rows i).length
  · rw [if_pos h]
    rw [windowAmounts_length] at h
    simp only [reduceCtorEq, false_iff, not_lt]
    omega
  · rw [if_neg h]
    rw [windowAmounts_length] at h
    simp only [true_iff]
    omega

theorem ratSqrt_zero : ratSqrt 0 = 0 := by
  unfold ratSqrt
  norm_num

theorem userDayCount_perm (l1 l2 : List SRow) (h : l1.Perm l2) (u : String)
    (d : Nat) : userDayCount l1 u d = userDayCount l2 u d := by
  unfold userDayCount
  exact (h.filter _).length_eq

/-- The 3-row single-user dataset of claim C4. -/
def c4input : List CanonRow :=
  [⟨"u1", some 0, 100, "g", "m", "IN"⟩,
   ⟨"u1", some 1, 100, "g", "m", "IN"⟩,
   ⟨"u1", some 2, 100, "g", "m", "IN"⟩]

/-- The sorted row list underlying c4input. -/
def c4rows : List SRow :=
  [⟨"u1", 0, 100, "g", "m", "IN"⟩,
   ⟨"u1", 1, 100, "g", "m", "IN"⟩,
   ⟨"u1", 2, 100, "g", "m", "IN"⟩]

theorem c4rows_sorted : sortByUserTime (dropBadTs c4input) = c4rows := by
  decide

theorem c4_mean0 : rollingMean c4rows 0 = none := by
  have hw : windowAmounts c4rows 0 = [(100 : Rat)] := by decide
  unfold rollingMean
  rw [hw]
  norm_num

theorem c4_mean1 : rollingMean c4rows 1 = none := by
  have hw : windowAmounts c4rows 1 = [(100 : Rat), 100] := by decide
  unfold rollingMean
  rw [hw]
  norm_num

theorem c4_mean2 : rollingMean c4rows 2 = some 100 := by
  have hw : windowAmounts c4rows 2 = [(100 : Rat), 100, 100] := by decide
  unfold rollingMean
  rw [hw]
  norm_num

theorem c4_std0 : rollingStd c4rows 0 = none := by
  have hw : windowAmounts c4rows 0 = [(100 : Rat)] := by decide
  unfold rollingStd
  rw [hw]
  norm_num

theorem c4_std1 : rollingStd c4rows 1 = none := by
  have hw : windowAmounts c4rows 1 = [(100 : Rat), 100] := by decide
  unfold rollingStd
  rw [hw]
  norm_num

theorem c4_std2 : rollingStd c4rows 2 = some 0 := by
  have hw : windowAmounts c4rows 2 = [(100 : Rat), 100, 100] := by decide
  unfold rollingStd
  rw [hw]
  norm_num [ratSqrt_zero]

theorem c4_z2 : zscoreAt c4rows 2 = some 0 := by
  unfold zscoreAt
  rw [c4_mean2, c4_std2]
  have hr : (c4rows.getD 2 default).amount = 100 := by decide
  simp only [Option.map_some, Option.getD_some, hr, Option.some.injEq]
  unfold scoreEps
  norm_num

theorem mkFeatRow_mean (rows : List SRow) (thr : Rat) (i : Nat) :
    (mkFeatRow rows thr i).rolling_mean_amount = rollingMean rows i := rfl

theorem mkFeatRow_std (rows : List SRow) (thr : Rat) (i : Nat) :
    (mkFeatRow rows thr i).rolling_std_amount = rollingStd rows i := rfl

theorem mkFeatRow_zscore (rows : List SRow) (thr : Rat) (i : Nat) :
    (mkFeatRow rows thr i).zscore_amount = zscoreAt rows i := rfl

theorem mkFeatRow_anomaly (rows : List SRow) (thr : Rat) (i : Nat) :
    (mkFeatRow rows thr i).is_amount_anomaly = anomalyAt rows i := rfl

theorem mkFeatRow_velflag (rows : List SRow) (thr : Rat) (i : Nat) :
    (mkFeatRow rows thr i).velocity_flag
      = decide (thr < (userDayCount rows (rows.getD i default).user_id
          (txDate (rows.getD i default).ts) : Rat)) := rfl

theorem mkFeatRow_velocity (rows : List SRow) (thr : Rat) (i : Nat) :
    (mkFeatRow rows thr i).user_tx_velocity_per_day
      = userDayCount rows (rows.getD i default).user_id
          (txDate (rows.getD i default).ts) := rfl

theorem zscore_none_of_mean_none (rows : List SRow) (i : Nat)
    (h : rollingMean rows i = none) : zscoreAt rows i = none := by
  unfold zscoreAt
  rw [h]
  rfl

theorem anomaly_false_of_mean_none (rows : List SRow) (i : Nat)
    (h : rollingMean rows i = none) : anomalyAt rows i = false := by
  unfold anomalyAt
  rw [zscore_none_of_mean_none rows i h]
  rfl

theorem c4_z0 : zscoreAt c4rows 0 = none :=
  zscore_none_of_mean_none c4rows 0 c4_mean0

theorem c4_z1 : zscoreAt c4rows 1 = none :=
  zscore_none_of_mean_none c4rows 1 c4_mean1

theorem c4_anom0 : anomalyAt c4rows 0 = false :=
  anomaly_false_of_mean_none c4rows 0 c4_mean0

theorem c4_anom1 : anomalyAt c4rows 1 = false :=
  anomaly_false_of_mean_none c4rows 1 c4_mean1

theorem c4_anom2 : anomalyAt c4rows 2 = false := by
  unfold anomalyAt
  rw [c4_z2]
  norm_num

theorem c4_engineer : engineerTransactionFeatures c4input
    = [mkFeatRow c4rows (velocityThreshold c4rows) 0,
       mkFeatRow c4rows (velocityThreshold c4rows) 1,
       mkFeatRow c4rows (velocityThreshold c4rows) 2] := by
  simp only [engineerTransactionFeatures]
  rw [c4rows_sorted]
  rfl

/-- Evaluation rule for quantile09, given the sorted series and the order
statistics around position 0.9 * (n - 1). -/
theorem quantile09_eval (l s : List Rat) (hs : l.insertionSort (· ≤ ·) = s)
    (n : Nat) (hn : s.length = n) (hne : ¬ n = 0) (vi vi1 : Rat)
    (hvi : s.getD ((9 * (n - 1)) / 10) 0 = vi)
    (hvi1 : s.getD ((9 * (n - 1)) / 10 + 1) vi = vi1) :
    quantile09 l
      = vi + (((9 * (n - 1) : Nat) : Rat) / 10 - (((9 * (n - 1)) / 10 : Nat) : Rat))
          * (vi1 - vi) := by
  simp only [quantile09]
  rw [hs, hn, if_neg hne, hvi, hvi1]

/-- The 13-row dataset refuting the group-level reading of the velocity
percentile: one user with 7 transactions on day 0 and 6 on day 1. -/
def c3input : List CanonRow :=
  ((List.range 7).map (fun t => ⟨"u1", some t, 1, "g", "m", "IN"⟩))
    ++ ((List.range 6).map (fun k => ⟨"u1", some (86400 + k), 1, "g", "m", "IN"⟩))

/-- The sorted row list underlying c3input. -/
def c3rows : List SRow :=
  ((List.range 7).map (fun t => ⟨"u1", t, 1, "g", "m", "IN"⟩))
    ++ ((List.range 6).map (fun k => ⟨"u1", 86400 + k, 1, "g", "m", "IN"⟩))

theorem c3rows_sorted : sortByUserTime (dropBadTs c3input) = c3rows := by
  decide

theorem c3_q_code : quantile09 (velocitySeries c3rows) = 7 := by
  rw [quantile09_eval (velocitySeries c3rows)
    (((List.replicate 6 (6 : Nat)) ++ (List.replicate 7 7)).map (fun n => (n : Rat)))
    (by decide) 13 (by decide) (by decide) ((7 : Nat) : Rat) ((7 : Nat) : Rat)
    (by decide) (by decide)]
  push_cast
  norm_num

theorem c3_thr_code : velocityThreshold c3rows = 7 := by
  unfold velocityThreshold
  rw [c3_q_code]
  exact max_eq_right (by norm_num)

theorem c3_q_spec : quantile09 (specUserDayCounts c3rows) = 69 / 10 := by
  rw [quantile09_eval (specUserDayCounts c3rows)
    [((6 : Nat) : Rat), ((7 : Nat) : Rat)]
    (by decide) 2 (by decide) (by decide) ((6 : Nat) : Rat) ((7 : Nat) : Rat)
    (by decide) (by decide)]
  push_cast
  norm_num

theorem c3_thr_spec : specVelocityThreshold c3rows = 69 / 10 := by
  unfold specVelocityThreshold
  rw [c3_q_spec]
  exact max_eq_right (by norm_num)

theorem c3_engineer_flags :
    (engineerTransactionFeatures c3input).map (·.velocity_flag)
      = List.replicate 13 false := by
  have heng : engineerTransactionFeatures c3input
      = (List.range 13).map (fun i => mkFeatRow c3rows 7 i) := by
    simp only [engineerTransactionFeatures]
    rw [c3rows_sorted, c3_thr_code]
    rfl
  rw [heng]
  decide

/-- The single-row dataset used to witness the floor property. -/
def c3small : List CanonRow :=
  [⟨"u1", some 0, 1, "g", "m", "IN"⟩]

/-! ## app._score_transactions_with_model and insights.build_fraud_table -/

/-- The opaque trained artifact: preprocessing transform, engineered feature
names and classifier are only ever used through predict_proba, modelled as a
function from the feature table to positive-class probabilities. -/
structure ModelBundle where
  predictProba : List FeatRow → List Rat

/-- A scored transaction: the feature row with fraud_score and
model_fraud_flag attached. The score is an Option so that a NaN or absent
score cell (tolerated by the fraud-table guards) is representable; the
scorer itself always produces some score. -/
structure ScoredTxn where
  row : FeatRow
  fraud_score : Option Rat
  model_fraud_flag : Bool
deriving DecidableEq, Repr

/-- app._score_transactions_with_model. With no bundle the score is the
rule flag cast to float and the model flag is the rule flag; with a bundle
the score is the classifier probability and the flag is score > 0.6. -/
def scoreTransactionsWithModel (df : List FeatRow) (bundle : Option ModelBundle) :
    List ScoredTxn :=
  match bundle with
  | none => df.map (fun r =>
      ⟨r, some (if r.rule_based_fraud_flag then 1 else 0), r.rule_based_fraud_flag⟩)
  | some b =>
      (df.zip (b.predictProba df)).map (fun p =>
        ⟨p.1, some p.2, decide (mkRat 6 10 < p.2)⟩)

/-- One row of the fraud table after projection to the display columns. -/
structure FraudCase where
  id : Nat
  user_id : String
  timestamp : Nat
  amount : Rat
  category : String
  merchant : String
  country : String
  fraud_score : Option Rat
  rule_based_fraud_flag : Bool
  model_fraud_flag : Bool
  velocity_flag : Bool
deriving DecidableEq, Repr

/-- The filter of insights.build_fraud_table: rule flag OR model flag OR
fraud_score > 0.5 (a null score compares False, as NaN does in pandas). -/
def fraudPred (t : ScoredTxn) : Bool :=
  t.row.rule_based_fraud_flag || t.model_fraud_flag
    || (match t.fraud_score with
        | some s => decide (mkRat 1 2 < s)
        | none => false)

/-- Projection of a scored row, carrying its original index as id (pandas
keeps original index labels through the boolean filter). -/
def mkFraudCase (i : Nat) (t : ScoredTxn) : FraudCase :=
  ⟨i, t.row.user_id, t.row.ts, t.row.amount, t.row.category, t.row.merchant,
    t.row.country, t.fraud_score, t.row.rule_based_fraud_flag, t.model_fraud_flag,
    t.row.velocity_flag⟩

/-- The flagged rows of the table with their original positional ids, in
table order before sorting: the reference set of claim C2. -/
def flaggedCases (rows : List ScoredTxn) : List FraudCase :=
  ((rows.enum).filter (fun p => fraudPred p.2)).map (fun p => mkFraudCase p.1 p.2)

/-- The sort key of build_fraud_table: record.get("fraud_score", 0), a
missing score sorting as 0. -/
def caseKey (c : FraudCase) : Rat :=
  c.fraud_score.getD 0

/-- Descending-by-score order: a before b when key a is at least key b. -/
def caseOrder (a b : FraudCase) : Prop :=
  caseKey b ≤ caseKey a

instance : DecidableRel caseOrder := fun a b => by
  unfold caseOrder
  infer_instance

instance : IsTotal FraudCase caseOrder :=
  ⟨fun a b => le_total (caseKey b) (caseKey a)⟩

instance : IsTrans FraudCase caseOrder :=
  ⟨fun _ _ _ hab hbc => le_trans hbc hab⟩

/-- insights.build_fraud_table: empty in, empty out; otherwise filter,
project and sort descending by fraud score. Total, hence never an error. -/
def buildFraudTable (rows : List ScoredTxn) : List FraudCase :=
  if rows.isEmpty then []
  else (flaggedCases rows).insertionSort caseOrder

/-- A plain feature row used to build concrete scorer inputs. -/
def mkTestFeatRow (rule : Bool) : FeatRow :=
  ⟨"u1", 0, 10, "g", "m", "IN", 10, 10, 0, 1, false, none, none, none, false,
    none, false, rule⟩

/-- The two-row input of the no-model scenario in C1. -/
def c1rows : List FeatRow :=
  [mkTestFeatRow true, mkTestFeatRow false]

/-- A scored transaction with the given score and all flags false. -/
def mkScoredTxn (s : Rat) : ScoredTxn :=
  ⟨mkTestFeatRow false, some s, false⟩

/-- The 3-row scored table of the C2 scenario: scores 0.2, 0.6, 0.9, all
flags false. -/
def c2rows : List ScoredTxn :=
  [mkScoredTxn (mkRat 1 5), mkScoredTxn (mkRat 3 5), mkScoredTxn (mkRat 9 10)]

/-! ## ingestion._infer_columns and the post-parse normalization

A parsed DataFrame is a list of named columns (column-major, in column
order). Cell values are null (NaN/NaT/None), numeric, string or datetime.
Column dtypes are derived from the values: a column is numeric when all its
cells are numeric or null (an all-null column is float in pandas), and
object when it holds at least one string. -/

/-- One cell of a parsed table. -/
inductive Val where
  | null : Val
  | num : Rat → Val
  | str : String → Val
  | date : Nat → Val
deriving DecidableEq, Repr

def Val.isNull : Val → Bool
  | .null => true
  | _ => false

def Val.isNum : Val → Bool
  | .num _ => true
  | _ => false

def Val.isStr : Val → Bool
  | .str _ => true
  | _ => false

def Val.isDate : Val → Bool
  | .date _ => true
  | _ => false

/-- A named column. -/
structure Col where
  name : String
  vals : List Val
deriving DecidableEq, Repr

/-- A parsed table: named columns in column order. -/
abbrev Table := List Col

def colNames (t : Table) : List String :=
  t.map Col.name

/-- Python: name in df.columns. -/
def hasCol (t : Table) (n : String) : Bool :=
  decide (n ∈ colNames t)

/-- Python: df[name], faithful on frames whose column names are pairwise
distinct (the callers guard presence with hasCol). On a DUPLICATED label
pandas returns a multi-column DataFrame instead of a Series and the
inference steps then raise (AttributeError in _coerce_numeric, ValueError
in max()); this model returns the first matching column, so the theorems
that range over arbitrary frames (C6, C8) carry an explicit
no-duplicate-names hypothesis marking the faithful domain. -/
def getVals (t : Table) (n : String) : List Val :=
  match t.find? (fun c => c.name == n) with
  | some c => c.vals
  | none => []

/-- Python: len(df) (tables are rectangular). -/
def nRows (t : Table) : Nat :=
  match t with
  | [] => 0
  | c :: _ => c.vals.length

/-- Python: df[name] = series — replace the column in place, or append a
new column at the end. -/
def setCol (t : Table) (n : String) (vs : List Val) : Table :=
  if hasCol t n then t.map (fun c => if c.name == n then ⟨c.name, vs⟩ else c)
  else t ++ [⟨n, vs⟩]

/-- Python: df[name] = scalar — broadcast over the rows. -/
def setColConst (t : Table) (n : String) (v : Val) : Table :=
  setCol t n (List.replicate (nRows t) v)

/-- Numeric dtype: every cell numeric or null (an all-null column is a
float column in pandas). -/
def isNumericCol (c : Col) : Bool :=
  c.vals.all (fun v => v.isNum || v.isNull)

/-- Object dtype: at least one string cell. -/
def isObjectCol (c : Col) : Bool :=
  c.vals.any Val.isStr

/-- select_dtypes(include=[np.number]).columns, in column order. -/
def numericColNames (t : Table) : List String :=
  (t.filter isNumericCol).map Col.name

/-- select_dtypes(include=["object"]).columns, in column order. -/
def textColNames (t : Table) : List String :=
  (t.filter isObjectCol).map Col.name

/-- pandas.to_datetime(errors="coerce") on one cell. Datetimes pass through
and nulls stay null — the only cases the claims exercise. Numbers parse as
epoch instants (the scale is irrelevant to every claim); date-like strings
would parse in pandas but no claim depends on them, so strings are modelled
as unparsable. -/
def toDatetimeVal : Val → Val
  | .date d => .date d
  | .num q => .date q.num.toNat
  | .str _ => .null
  | .null => .null

/-- ingestion._coerce_numeric on one cell (the column is first rendered with
astype(str)): str(float) round-trips through to_numeric exactly, str(NaN) is
"nan" which coerces back to null, and a datetime renders as a date string
that fails numeric parsing. -/
def coerceVal : Val → Val
  | .null => .null
  | .num q => .num q
  | .str s =>
      match coerceNumericStr s with
      | some q => .num q
      | none => .null
  | .date _ => .null

/-- series.notna().mean(): the share of non-null cells (NaN on an empty
series in pandas, modelled as 0 — both compare False against the positive
thresholds this feeds). -/
def notnaShare (vs : List Val) : Rat :=
  mkRat ((vs.filter (fun v => !v.isNull)).length) vs.length

/-- ingestion._pick_column: the first alias present among the columns. -/
def pickColumn (t : Table) (cands : List String) : Option String :=
  cands.find? (fun n => hasCol t n)

def tsAliases : List String :=
  ["timestamp", "date", "time", "txn_date", "transaction_date", "posted_date"]

def amountAliases : List String :=
  ["amount", "value", "amt", "transaction_amount", "debit", "credit", "net_amount"]

def merchantAliases : List String :=
  ["merchant", "vendor", "payee", "supplier", "counterparty", "party", "beneficiary"]

def countryAliases : List String :=
  ["country", "nation", "region", "geo", "country_code", "location"]

def userAliases : List String :=
  ["user_id", "user", "customer", "client", "account", "account_id", "member",
   "subscriber"]

/-- Python max(xs, key=k): the first element attaining the maximum key (a
later element replaces the current one only when strictly greater). -/
def firstArgmaxBy (key : α → Rat) : List α → Option α
  | [] => none
  | a :: l => some (l.foldl (fun acc x => if key acc < key x then x else acc) a)

/-- Python min(xs, key=k): the first element attaining the minimum key. -/
def firstArgminBy (key : α → Rat) : List α → Option α
  | [] => none
  | a :: l => some (l.foldl (fun acc x => if key x < key acc then x else acc) a)

/-- series.nunique(dropna=True). -/
def nuniqueDropna (vs : List Val) : Nat :=
  ((vs.filter (fun v => !v.isNull)).dedup).length

/-- series.var(skipna=True): sample variance with ddof=1, NaN (none) below
2 observations. -/
def varSkipna (vs : List Val) : Option Rat :=
  let xs := vs.filterMap (fun v =>
    match v with
    | .num q => some q
    | _ => none)
  if xs.length < 2 then none
  else
    let m := xs.sum / (xs.length : Rat)
    some ((xs.map (fun x => (x - m) ^ 2)).sum / ((xs.length - 1 : Nat) : Rat))

/-- series.fillna(default) on one cell. -/
def fillnaVal (dflt : Val) (v : Val) : Val :=
  if v.isNull then dflt else v

/-- pd.Timestamp.today() of the synthetic-timestamp fallback; the concrete
instant is irrelevant to every claim, modelled as the epoch. -/
def todayTs : Nat := 0

/-- today + pd.to_timedelta(arange(n), unit="D"). -/
def syntheticDates (n : Nat) : List Val :=
  (List.range n).map (fun i => .date (todayTs + i * 86400))

/-- Column-name normalization at the top of _infer_columns. -/
def stepNormalizeNames (t : Table) : Table :=
  t.map (fun c => ⟨normName c.name, c.vals⟩)

/-- Whether the first list is a prefix of the second. -/
def listStartsWith : List Char → List Char → Bool
  | [], _ => true
  | _ :: _, [] => false
  | a :: as, b :: bs => a = b && listStartsWith as bs

/-- Whether pat occurs as a contiguous substring (Python: pat in s). -/
def listHasInfix (pat : List Char) : List Char → Bool
  | [] => pat.isEmpty
  | b :: rest => listStartsWith pat (b :: rest) || listHasInfix pat rest

/-- Timestamp inference: alias match, else the date/time/month-named column
with the highest share of parseable dates (strictly positive, else treated
as absent); the chosen column is coerced into a timestamp column. -/
def stepTimestamp (t : Table) : Table :=
  let tsCol :=
    match pickColumn t tsAliases with
    | some c => some c
    | none =>
        let cands := (colNames t).filter (fun c =>
          listHasInfix "date".toList c.toList || listHasInfix "time".toList c.toList
            || listHasInfix "month".toList c.toList)
        (cands.foldl (fun acc c =>
            let r := notnaShare ((getVals t c).map toDatetimeVal)
            if acc.2 < r then (some c, r) else acc)
          ((none : Option String), (0 : Rat))).1
  match tsCol with
  | some c => setCol t "timestamp" ((getVals t c).map toDatetimeVal)
  | none => t

/-- amount = credit.fillna(0) - debit.fillna(0), both coerced. -/
def amountFromDebitCredit (t : Table) : List Val :=
  (((getVals t "credit").map coerceVal).zip ((getVals t "debit").map coerceVal)).map
    (fun p =>
      .num ((match p.1 with
             | .num q => q
             | _ => 0)
        - (match p.2 with
           | .num q => q
           | _ => 0)))

/-- df["amount"] from the highest-variance column of cols (Python max over
a dict keyed by variance, NaN variances keyed as -1). -/
def setAmountFromBest (t : Table) (cols : List String) : Table :=
  match firstArgmaxBy (fun c => (varSkipna (getVals t c)).getD (-1)) cols with
  | some b => setCol t "amount" ((getVals t b).map coerceVal)
  | none => t

/-- Amount inference: debit/credit pair, else alias match, else the
highest-variance numeric column — where, if no column has numeric dtype,
every column whose coercion is more than 60 percent non-null is coerced in
place first and those columns become the candidates. -/
def stepAmount (t : Table) : Table :=
  if hasCol t "debit" && hasCol t "credit" then
    setCol t "amount" (amountFromDebitCredit t)
  else
    match pickColumn t amountAliases with
    | some a => setCol t "amount" ((getVals t a).map coerceVal)
    | none =>
        let ncols := numericColNames t
        if ncols.isEmpty then
          let coerced := (colNames t).foldl (fun acc c =>
              let cv := (getVals acc.1 c).map coerceVal
              if mkRat 6 10 < notnaShare cv then (setCol acc.1 c cv, acc.2 ++ [c])
              else acc)
            (t, ([] : List String))
          if coerced.2.isEmpty then coerced.1
          else setAmountFromBest coerced.1 coerced.2
        else setAmountFromBest t ncols

/-- Category inference: absent category becomes the text column with the
fewest distinct non-null values (zero counting as 1e9), nulls filled with
"General". -/
def stepCategory (t : Table) : Table :=
  if hasCol t "category" then t
  else
    match firstArgminBy (fun c =>
        let k := nuniqueDropna (getVals t c)
        if 0 < k then (k : Rat) else 1000000000) (textColNames t) with
    | some b => setCol t "category" ((getVals t b).map (fillnaVal (.str "General")))
    | none => t

/-- Merchant inference: alias match, else (when no merchant column exists)
the text column with the most distinct values — the candidate list is the
object columns of the CURRENT frame, which includes the category column
just created, with no exclusion. Faithful on frames without duplicate
column names: with a duplicated object label the source raises instead
(df[c].nunique() yields a Series key inside max(), and df["merchant"] =
df[best] becomes a multi-column assignment), hence the Nodup hypothesis on
the amended C8 theorem. -/
def stepMerchant (t : Table) : Table :=
  match pickColumn t merchantAliases with
  | some m => setCol t "merchant" (getVals t m)
  | none =>
      if hasCol t "merchant" then t
      else
        match firstArgmaxBy (fun c => (nuniqueDropna (getVals t c) : Rat))
            (textColNames t) with
        | some b => setCol t "merchant" ((getVals t b).map (fillnaVal (.str "Unknown")))
        | none => t

/-- Country resolution: alias match, else the literal "Unknown". -/
def stepCountry (t : Table) : Table :=
  match pickColumn t countryAliases with
  | some c => setCol t "country" (getVals t c)
  | none => if hasCol t "country" then t else setColConst t "country" (.str "Unknown")

/-- User resolution: alias match, else the literal "user-1". -/
def stepUser (t : Table) : Table :=
  match pickColumn t userAliases with
  | some c => setCol t "user_id" (getVals t c)
  | none => if hasCol t "user_id" then t else setColConst t "user_id" (.str "user-1")

/-- Timestamp fallback: a missing or all-null timestamp column becomes the
synthetic day-by-day sequence; otherwise null cells are filled with
today. -/
def stepTimestampDefault (t : Table) : Table :=
  if hasCol t "timestamp" then
    if (getVals t "timestamp").all Val.isNull then
      setCol t "timestamp" (syntheticDates (nRows t))
    else setCol t "timestamp" ((getVals t "timestamp").map (fillnaVal (.date todayTs)))
  else setCol t "timestamp" (syntheticDates (nRows t))

/-- Amount fallback: default 0.0, then coerce and fill nulls with 0.0. -/
def stepAmountDefault (t : Table) : Table :=
  let t1 := if hasCol t "amount" then t else setColConst t "amount" (.num 0)
  setCol t1 "amount" ((getVals t1 "amount").map (fun v => fillnaVal (.num 0) (coerceVal v)))

/-- The four final literal defaults. -/
def stepFinalDefaults (t : Table) : Table :=
  let t1 := if hasCol t "category" then t else setColConst t "category" (.str "General")
  let t2 := if hasCol t1 "merchant" then t1 else setColConst t1 "merchant" (.str "Unknown")
  let t3 := if hasCol t2 "country" then t2 else setColConst t2 "country" (.str "Unknown")
  if hasCol t3 "user_id" then t3 else setColConst t3 "user_id" (.str "user-1")

/-- ingestion._infer_columns. -/
def inferColumns (t : Table) : Table :=
  stepFinalDefaults (stepAmountDefault (stepTimestampDefault (stepUser (stepCountry
    (stepMerchant (stepCategory (stepAmount (stepTimestamp (stepNormalizeNames t)))))))))

/-- dropna(axis=0, how="all"): drop the rows whose cells are all null. -/
def dropEmptyRows (t : Table) : Table :=
  let keep := (List.range (nRows t)).filter (fun i =>
    t.any (fun c => !(c.vals.getD i Val.null).isNull))
  t.map (fun c => ⟨c.name, keep.map (fun i => c.vals.getD i Val.null)⟩)

/-- dropna(axis=1, how="all"): drop the columns whose cells are all null. -/
def dropEmptyCols (t : Table) : Table :=
  t.filter (fun c => c.vals.any (fun v => !v.isNull))

/-- The trimming done by load_transactions_excel before inference. -/
def dropTrim (t : Table) : Table :=
  dropEmptyCols (dropEmptyRows t)

/-- A table with no column or no row. -/
def isEmptyTable (t : Table) : Bool :=
  t.isEmpty || decide (nRows t = 0)

/-- The post-parse normalization stage of ingestion.load_transactions_excel
(everything after a raw table has been parsed): trim, then infer columns.
Except makes a raising outcome representable for stating claim C6. The
source contains no raise STATEMENT on this path and none of its branch
conditions tests emptiness; it can still raise accidentally — outside the
try/except — when distinct raw headers collide after normalization (for
example "Amount" and "amount ", making df["amount"] a two-column DataFrame
so that _coerce_numeric hits .str on a DataFrame). That duplicate-label
path is outside this model (see getVals), so the ok result is faithful
exactly on tables whose trimmed normalized column names are pairwise
distinct — the hypothesis on the amended C6 theorem — and on the empty
table of the counterexample. -/
def normalizeParsed (t : Table) : Except String Table :=
  .ok (inferColumns (dropTrim t))

/-- The canonical column set. -/
def canonicalNames : List String :=
  ["user_id", "timestamp", "amount", "category", "merchant", "country"]

/-- A table that is already canonical output: exactly the six canonical
column names (in any order, without duplicates), rectangular, and carrying
non-null canonical-typed values. -/
def IsCanonicalTable (t : Table) : Prop :=
  (colNames t).Perm canonicalNames
    ∧ (∀ c ∈ t, c.vals.length = nRows t)
    ∧ (∀ v ∈ getVals t "timestamp", v.isDate = true)
    ∧ (∀ v ∈ getVals t "amount", v.isNum = true)
    ∧ (∀ v ∈ getVals t "user_id", v.isStr = true)
    ∧ (∀ v ∈ getVals t "category", v.isStr = true)
    ∧ (∀ v ∈ getVals t "merchant", v.isStr = true)
    ∧ (∀ v ∈ getVals t "country", v.isStr = true)

/-- The claim-side (spec) category source: the text column of the input
with the fewest distinct non-null values. -/
def specCategorySource (t : Table) : Option String :=
  firstArgminBy (fun c =>
    let k := nuniqueDropna (getVals t c)
    if 0 < k then (k : Rat) else 1000000000) (textColNames t)

/-- The claim-side merchant candidates: the text columns of the input
excluding the column chosen as category. -/
def specMerchantCandidates (t : Table) : List String :=
  match specCategorySource t with
  | some cat => (textColNames t).filter (fun c => !(c == cat))
  | none => textColNames t

/-- The single-text-column table refuting C8. -/
def c8input : Table :=
  [⟨"c1", [.str "a", .str "b"]⟩]

/-- A one-row canonical table, used to witness C7. -/
def c7table : Table :=
  [⟨"user_id", [.str "u"]⟩, ⟨"timestamp", [.date 0]⟩, ⟨"amount", [.num 5]⟩,
   ⟨"category", [.str "g"]⟩, ⟨"merchant", [.str "m"]⟩, ⟨"country", [.str "IN"]⟩]

/-- The table state at the merchant-inference step used to witness the
amended C8: the original text column plus the derived category column. -/
def c8wit : Table :=
  [⟨"c1", [.str "a", .str "b"]⟩, ⟨"category", [.str "a", .str "b"]⟩]

theorem colNames_setCol (t : Table) (n : String) (vs : List Val) :
    colNames (setCol t n vs)
      = if hasCol t n then colNames t else colNames t ++ [n] := by
  unfold setCol
  by_cases h : hasCol t n
  · rw [if_pos h, if_pos h]
    unfold colNames
    rw [List.map_map]
    apply List.map_congr_left
    intro c _
    by_cases hc : c.name == n
    · show (if c.name == n then (⟨c.name, vs⟩ : Col) else c).name = c.name
      rw [if_pos hc]
    · show (if c.name == n then (⟨c.name, vs⟩ : Col) else c).name = c.name
      rw [if_neg hc]
  · rw [if_neg h, if_neg h]
    unfold colNames
    rw [List.map_append]
    rfl

theorem hasCol_setCol_self (t : Table) (n : String) (vs : List Val) :
    hasCol (setCol t n vs) n = true := by
  unfold hasCol
  rw [colNames_setCol]
  by_cases h : hasCol t n
  · rw [if_pos h]
    exact h
  · rw [if_neg h]
    simp

theorem hasCol_setCol_mono (t : Table) (n m : String) (vs : List Val)
    (h : hasCol t m = true) : hasCol (setCol t n vs) m = true := by
  unfold hasCol at h ⊢
  rw [colNames_setCol]
  by_cases hn : hasCol t n
  · rw [if_pos hn]
    exact h
  · rw [if_neg hn]
    simp only [decide_eq_true_eq] at h ⊢
    exact List.mem_append_left _ h

theorem ite_const_has (t : Table) (n : String) (v : Val) :
    hasCol (if hasCol t n then t else setColConst t n v) n = true := by
  by_cases h : hasCol t n
  · rw [if_pos h]
    exact h
  · rw [if_neg h]
    exact hasCol_setCol_self _ _ _

theorem ite_const_mono (t : Table) (n m : String) (v : Val)
    (h : hasCol t m = true) :
    hasCol (if hasCol t n then t else setColConst t n v) m = true := by
  by_cases h1 : hasCol t n
  · rw [if_pos h1]
    exact h
  · rw [if_neg h1]
    exact hasCol_setCol_mono _ _ _ _ h

theorem stepTimestampDefault_has (t : Table) :
    hasCol (stepTimestampDefault t) "timestamp" = true := by
  unfold stepTimestampDefault
  by_cases h : hasCol t "timestamp"
  · rw [if_pos h]
    by_cases h2 : (getVals t "timestamp").all Val.isNull
    · rw [if_pos h2]
      exact hasCol_setCol_self _ _ _
    · rw [if_neg h2]
      exact hasCol_setCol_self _ _ _
  · rw [if_neg h]
    exact hasCol_setCol_self _ _ _

theorem stepAmountDefault_has (t : Table) :
    hasCol (stepAmountDefault t) "amount" = true := by
  unfold stepAmountDefault
  exact hasCol_setCol_self _ _ _

theorem stepAmountDefault_mono (t : Table) (m : String) (h : hasCol t m = true) :
    hasCol (stepAmountDefault t) m = true := by
  unfold stepAmountDefault
  apply hasCol_setCol_mono
  by_cases h1 : hasCol t "amount"
  · rw [if_pos h1]
    exact h
  · rw [if_neg h1]
    exact hasCol_setCol_mono _ _ _ _ h

theorem stepFinalDefaults_mono (t : Table) (m : String) (h : hasCol t m = true) :
    hasCol (stepFinalDefaults t) m = true := by
  unfold stepFinalDefaults
  exact ite_const_mono _ _ _ _ (ite_const_mono _ _ _ _
    (ite_const_mono _ _ _ _ (ite_const_mono _ _ _ _ h)))

theorem stepFinalDefaults_has_category (t : Table) :
    hasCol (stepFinalDefaults t) "category" = true := by
  unfold stepFinalDefaults
  exact ite_const_mono _ _ _ _ (ite_const_mono _ _ _ _
    (ite_const_mono _ _ _ _ (ite_const_has _ _ _)))

theorem stepFinalDefaults_has_merchant (t : Table) :
    hasCol (stepFinalDefaults t) "merchant" = true := by
  unfold stepFinalDefaults
  exact ite_const_mono _ _ _ _ (ite_const_mono _ _ _ _ (ite_const_has _ _ _))

theorem stepFinalDefaults_has_country (t : Table) :
    hasCol (stepFinalDefaults t) "country" = true := by
  unfold stepFinalDefaults
  exact ite_const_mono _ _ _ _ (ite_const_has _ _ _)

theorem stepFinalDefaults_has_user (t : Table) :
    hasCol (stepFinalDefaults t) "user_id" = true := by
  unfold stepFinalDefaults
  exact ite_const_has _ _ _

theorem foldl_first_argmax (key : α → Rat) (l : List α) (acc : α) :
    (l.foldl (fun a x => if key a < key x then x else a) acc = acc
        ∨ l.foldl (fun a x => if key a < key x then x else a) acc ∈ l)
      ∧ key acc ≤ key (l.foldl (fun a x => if key a < key x then x else a) acc)
      ∧ ∀ a ∈ l, key a ≤ key (l.foldl (fun a x => if key a < key x then x else a) acc) := by
  induction l generalizing acc with
  | nil => simp
  | cons x xs ih =>
    simp only [List.foldl_cons]
    by_cases h : key acc < key x
    · rw [if_pos h]
      obtain ⟨h1, h2, h3⟩ := ih x
      refine ⟨?_, le_trans (le_of_lt h) h2, ?_⟩
      · rcases h1 with h1 | h1
        · right
          rw [h1]
          exact List.mem_cons_self _ _
        · right
          exact List.mem_cons_of_mem _ h1
      · intro a ha
        rcases List.mem_cons.mp ha with rfl | ha
        · exact h2
        · exact h3 a ha
    · rw [if_neg h]
      obtain ⟨h1, h2, h3⟩ := ih acc
      refine ⟨?_, h2, ?_⟩
      · rcases h1 with h1 | h1
        · left
          exact h1
        · right
          exact List.mem_cons_of_mem _ h1
      · intro a ha
        rcases List.mem_cons.mp ha with rfl | ha
        · exact le_trans (not_lt.mp h) h2
        · exact h3 a ha

theorem firstArgmaxBy_spec (key : α → Rat) (a : α) (l : List α) :
    ∃ b, firstArgmaxBy key (a :: l) = some b ∧ b ∈ a :: l
      ∧ ∀ x ∈ a :: l, key x ≤ key b := by
  obtain ⟨h1, h2, h3⟩ := foldl_first_argmax key l a
  refine ⟨_, rfl, ?_, ?_⟩
  · rcases h1 with h1 | h1
    · rw [h1]
      exact List.mem_cons_self _ _
    · exact List.mem_cons_of_mem _ h1
  · intro x hx
    rcases List.mem_cons.mp hx with rfl | hx
    · exact h2
    · exact h3 x hx

theorem hasCol_true_of_mem {t : Table} {n : String} (h : n ∈ colNames t) :
    hasCol t n = true := by
  unfold hasCol
  exact decide_eq_true h

theorem hasCol_false_of_not_mem {t : Table} {n : String} (h : n ∉ colNames t) :
    hasCol t n = false := by
  unfold hasCol
  exact decide_eq_false h

theorem canonical_hasCol {t : Table} (h : IsCanonicalTable t) (n : String)
    (hn : n ∈ canonicalNames) : hasCol t n = true :=
  hasCol_true_of_mem (h.1.mem_iff.mpr hn)

theorem hasCol_cons_tail {c : Col} {rest : Table} {n : String}
    (h : hasCol (c :: rest) n = true) (hc : (c.name == n) = false) :
    hasCol rest n = true := by
  simp only [hasCol, colNames, List.map_cons, decide_eq_true_eq, List.mem_cons] at h ⊢
  rcases h with h | h
  · exact absurd h.symm (beq_eq_false_iff_ne.mp hc)
  · exact h

theorem getVals_mem (t : Table) (n : String) (h : hasCol t n = true) :
    ∃ c, c ∈ t ∧ c.name = n ∧ getVals t n = c.vals := by
  induction t with
  | nil => simp [hasCol, colNames] at h
  | cons c rest ih =>
    by_cases hc : (c.name == n) = true
    · refine ⟨c, List.mem_cons_self _ _, eq_of_beq hc, ?_⟩
      unfold getVals
      rw [List.find?_cons_of_pos (p := fun c => c.name == n) rest hc]
    · obtain ⟨d, hd1, hd2, hd3⟩ :=
        ih (hasCol_cons_tail h (Bool.not_eq_true _ ▸ hc))
      refine ⟨d, List.mem_cons_of_mem _ hd1, hd2, ?_⟩
      unfold getVals at hd3 ⊢
      rw [List.find?_cons_of_neg (p := fun c => c.name == n) rest hc]
      exact hd3

theorem setCol_getVals_self (t : Table) (n : String)
    (hnd : (colNames t).Nodup) (h : hasCol t n = true) :
    setCol t n (getVals t n) = t := by
  induction t with
  | nil => simp [hasCol, colNames] at h
  | cons c rest ih =>
    have hndrest : (colNames rest).Nodup := by
      simp only [colNames, List.map_cons, List.nodup_cons] at hnd
      exact hnd.2
    have hhead : c.name ∉ colNames rest := by
      simp only [colNames, List.map_cons, List.nodup_cons] at hnd
      exact hnd.1
    by_cases hc : (c.name == n) = true
    · have hg : getVals (c :: rest) n = c.vals := by
        unfold getVals
        rw [List.find?_cons_of_pos (p := fun c => c.name == n) rest hc]
      unfold setCol
      rw [if_pos h, List.map_cons, if_pos hc, hg]
      have htail : rest.map (fun x => if x.name == n then (⟨x.name, c.vals⟩ : Col) else x)
          = rest := by
        have hstep : ∀ x ∈ rest,
            (if x.name == n then (⟨x.name, c.vals⟩ : Col) else x) = x := by
          intro x hx
          rw [if_neg]
          intro hxn
          apply hhead
          rw [eq_of_beq hc, ← eq_of_beq hxn]
          exact List.mem_map_of_mem Col.name hx
        exact (List.map_congr_left hstep).trans (List.map_id _)
      rw [htail]
    · have hcf : (c.name == n) = false := Bool.not_eq_true _ ▸ hc
      have hrest : hasCol rest n = true := hasCol_cons_tail h hcf
      have hg : getVals (c :: rest) n = getVals rest n := by
        unfold getVals
        rw [List.find?_cons_of_neg (p := fun c => c.name == n) rest hc]
      have ihr := ih hndrest hrest
      unfold setCol at ihr
      rw [if_pos hrest] at ihr
      unfold setCol
      rw [if_pos h, List.map_cons, if_neg hc, hg, ihr]

theorem map_id_of_ptwise {f : Val → Val} {vs : List Val}
    (h : ∀ v ∈ vs, f v = v) : vs.map f = vs :=
  (List.map_congr_left h).trans (List.map_id _)

theorem normName_canonical (n : String) (h : n ∈ canonicalNames) :
    normName n = n := by
  fin_cases h <;> decide

theorem toDatetimeVal_of_date {v : Val} (h : v.isDate = true) :
    toDatetimeVal v = v := by
  cases v with
  | date d => rfl
  | null => simp [Val.isDate] at h
  | num q => simp [Val.isDate] at h
  | str s => simp [Val.isDate] at h

theorem coerceVal_of_num {v : Val} (h : v.isNum = true) : coerceVal v = v := by
  cases v with
  | num q => rfl
  | null => simp [Val.isNum] at h
  | date d => simp [Val.isNum] at h
  | str s => simp [Val.isNum] at h

theorem fillnaVal_of_not_null {d v : Val} (h : v.isNull = false) :
    fillnaVal d v = v := by
  unfold fillnaVal
  rw [h]
  rfl

theorem isNull_false_of_date {v : Val} (h : v.isDate = true) :
    v.isNull = false := by
  cases v <;> simp [Val.isDate, Val.isNull] at h ⊢

theorem isNull_false_of_num {v : Val} (h : v.isNum = true) :
    v.isNull = false := by
  cases v <;> simp [Val.isNum, Val.isNull] at h ⊢

theorem canonical_nodup {t : Table} (h : IsCanonicalTable t) :
    (colNames t).Nodup :=
  h.1.nodup_iff.mpr (by decide)

theorem stepNormalizeNames_canonical {t : Table} (h : IsCanonicalTable t) :
    stepNormalizeNames t = t := by
  unfold stepNormalizeNames
  have hstep : ∀ c ∈ t, (⟨normName c.name, c.vals⟩ : Col) = c := by
    intro c hc
    have hm : c.name ∈ colNames t := List.mem_map_of_mem Col.name hc
    rw [normName_canonical c.name (h.1.mem_iff.mp hm)]
  exact (List.map_congr_left hstep).trans (List.map_id _)

theorem pickColumn_first {t : Table} {n : String} (rest : List String)
    (h : hasCol t n = true) : pickColumn t (n :: rest) = some n := by
  unfold pickColumn
  rw [List.find?_cons_of_pos (p := fun m => hasCol t m) rest h]

theorem stepTimestamp_canonical {t : Table} (h : IsCanonicalTable t) :
    stepTimestamp t = t := by
  have hts : hasCol t "timestamp" = true := canonical_hasCol h _ (by decide)
  have hpick : pickColumn t tsAliases = some "timestamp" := pickColumn_first _ hts
  have hred : stepTimestamp t
      = setCol t "timestamp" ((getVals t "timestamp").map toDatetimeVal) := by
    unfold stepTimestamp
    rw [hpick]
  rw [hred, map_id_of_ptwise (fun v hv => toDatetimeVal_of_date (h.2.2.1 v hv))]
  exact setCol_getVals_self t _ (canonical_nodup h) hts

theorem stepAmount_canonical {t : Table} (h : IsCanonicalTable t) :
    stepAmount t = t := by
  have hdeb : hasCol t "debit" = false := by
    apply hasCol_false_of_not_mem
    intro hc
    have := h.1.mem_iff.mp hc
    revert this
    decide
  have ham : hasCol t "amount" = true := canonical_hasCol h _ (by decide)
  have hpick : pickColumn t amountAliases = some "amount" := pickColumn_first _ ham
  have hred : stepAmount t
      = setCol t "amount" ((getVals t "amount").map coerceVal) := by
    unfold stepAmount
    rw [hdeb, hpick]
    rfl
  rw [hred, map_id_of_ptwise (fun v hv => coerceVal_of_num (h.2.2.2.1 v hv))]
  exact setCol_getVals_self t _ (canonical_nodup h) ham

theorem stepCategory_canonical {t : Table} (h : IsCanonicalTable t) :
    stepCategory t = t := by
  unfold stepCategory
  rw [if_pos (canonical_hasCol h "category" (by decide))]

theorem stepMerchant_canonical {t : Table} (h : IsCanonicalTable t) :
    stepMerchant t = t := by
  have hm : hasCol t "merchant" = true := canonical_hasCol h _ (by decide)
  have hpick : pickColumn t merchantAliases = some "merchant" := pickColumn_first _ hm
  have hred : stepMerchant t = setCol t "merchant" (getVals t "merchant") := by
    unfold stepMerchant
    rw [hpick]
  rw [hred]
  exact setCol_getVals_self t _ (canonical_nodup h) hm

theorem stepCountry_canonical {t : Table} (h : IsCanonicalTable t) :
    stepCountry t = t := by
  have hm : hasCol t "country" = true := canonical_hasCol h _ (by decide)
  have hpick : pickColumn t countryAliases = some "country" := pickColumn_first _ hm
  have hred : stepCountry t = setCol t "country" (getVals t "country") := by
    unfold stepCountry
    rw [hpick]
  rw [hred]
  exact setCol_getVals_self t _ (canonical_nodup h) hm

theorem stepUser_canonical {t : Table} (h : IsCanonicalTable t) :
    stepUser t = t := by
  have hm : hasCol t "user_id" = true := canonical_hasCol h _ (by decide)
  have hpick : pickColumn t userAliases = some "user_id" := pickColumn_first _ hm
  have hred : stepUser t = setCol t "user_id" (getVals t "user_id") := by
    unfold stepUser
    rw [hpick]
  rw [hred]
  exact setCol_getVals_self t _ (canonical_nodup h) hm

theorem stepTimestampDefault_canonical {t : Table} (h : IsCanonicalTable t) :
    stepTimestampDefault t = t := by
  have hts : hasCol t "timestamp" = true := canonical_hasCol h _ (by decide)
  unfold stepTimestampDefault
  rw [if_pos hts]
  by_cases hall : (getVals t "timestamp").all Val.isNull = true
  · have hvals : getVals t "timestamp" = [] := by
      cases hv : getVals t "timestamp" with
      | nil => rfl
      | cons v vs =>
        have h1 : v.isDate = true := h.2.2.1 v (by rw [hv]; exact List.mem_cons_self _ _)
        have h2 : v.isNull = true := by
          rw [hv, List.all_cons, Bool.and_eq_true] at hall
          exact hall.1
        rw [isNull_false_of_date h1] at h2
        cases h2
    have hrows : nRows t = 0 := by
      obtain ⟨c, hc1, hc2, hc3⟩ := getVals_mem t "timestamp" hts
      have := h.2.1 c hc1
      rw [← this, ← hc3, hvals]
      rfl
    rw [if_pos hall, hrows]
    have hsyn : syntheticDates 0 = getVals t "timestamp" := by
      rw [hvals]
      rfl
    rw [hsyn]
    exact setCol_getVals_self t _ (canonical_nodup h) hts
  · rw [if_neg hall,
      map_id_of_ptwise (fun v hv =>
        fillnaVal_of_not_null (isNull_false_of_date (h.2.2.1 v hv)))]
    exact setCol_getVals_self t _ (canonical_nodup h) hts

theorem stepAmountDefault_canonical {t : Table} (h : IsCanonicalTable t) :
    stepAmountDefault t = t := by
  have ham : hasCol t "amount" = true := canonical_hasCol h _ (by decide)
  simp only [stepAmountDefault]
  rw [if_pos ham]
  have hmap : ∀ v ∈ getVals t "amount", fillnaVal (Val.num 0) (coerceVal v) = v := by
    intro v hv
    have hn := h.2.2.2.1 v hv
    rw [coerceVal_of_num hn]
    exact fillnaVal_of_not_null (isNull_false_of_num hn)
  rw [map_id_of_ptwise hmap]
  exact setCol_getVals_self t _ (canonical_nodup h) ham

theorem stepFinalDefaults_canonical {t : Table} (h : IsCanonicalTable t) :
    stepFinalDefaults t = t := by
  simp only [stepFinalDefaults]
  rw [if_pos (canonical_hasCol h "category" (by decide)),
    if_pos (canonical_hasCol h "merchant" (by decide)),
    if_pos (canonical_hasCol h "country" (by decide)),
    if_pos (canonical_hasCol h "user_id" (by decide))]

end Kavach

/-! ## Claims C5 and C9 -/

/-- C5: the numeric coercion of the Schema Normalizer maps "(1,234.50)",
"$1234.50", "₹1234.50" and "1234.50" to -1234.50, 1234.50, 1234.50 and
1234.50 respectively: thousands separators are stripped, parentheses are read
as negation and the currency symbols are stripped. -/
theorem C5_coerce_numeric_currency :
    Kavach.coerceNumericStr "(1,234.50)" = some (-(1234.5 : Rat))
      ∧ Kavach.coerceNumericStr "$1234.50" = some (1234.5 : Rat)
      ∧ Kavach.coerceNumericStr "₹1234.50" = some (1234.5 : Rat)
      ∧ Kavach.coerceNumericStr "1234.50" = some (1234.5 : Rat) := by
  have h2 : Kavach.parseUnsigned ['1', '2', '3', '4', '.', '5', '0']
      = some ((Kavach.digitsToNat ['1', '2', '3', '4'] : Rat)
          + (Kavach.digitsToNat ['5', '0'] : Rat) / ((10 : Rat) ^ (2 : Nat))) := rfl
  have h3 : Kavach.digitsToNat ['1', '2', '3', '4'] = 1234 := by decide
  have h4 : Kavach.digitsToNat ['5', '0'] = 50 := by decide
  refine ⟨?_, ?_, ?_, ?_⟩
  · have h1 : Kavach.pyStrip (Kavach.coerceChars "(1,234.50)".toList)
        = ['-', '1', '2', '3', '4', '.', '5', '0'] := by decide
    unfold Kavach.coerceNumericStr
    rw [h1]
    show (Kavach.parseUnsigned ['1', '2', '3', '4', '.', '5', '0']).map Neg.neg = _
    rw [h2, h3, h4]
    norm_num
  · have h1 : Kavach.pyStrip (Kavach.coerceChars "$1234.50".toList)
        = ['1', '2', '3', '4', '.', '5', '0'] := by decide
    unfold Kavach.coerceNumericStr
    rw [h1]
    show Kavach.parseUnsigned ['1', '2', '3', '4', '.', '5', '0'] = _
    rw [h2, h3, h4]
    norm_num
  · have h1 : Kavach.pyStrip (Kavach.coerceChars "₹1234.50".toList)
        = ['1', '2', '3', '4', '.', '5', '0'] := by decide
    unfold Kavach.coerceNumericStr
    rw [h1]
    show Kavach.parseUnsigned ['1', '2', '3', '4', '.', '5', '0'] = _
    rw [h2, h3, h4]
    norm_num
  · have h1 : Kavach.pyStrip (Kavach.coerceChars "1234.50".toList)
        = ['1', '2', '3', '4', '.', '5', '0'] := by decide
    unfold Kavach.coerceNumericStr
    rw [h1]
    show Kavach.parseUnsigned ['1', '2', '3', '4', '.', '5', '0'] = _
    rw [h2, h3, h4]
    norm_num

/-- C9 counterexample: _normalize_columns performs no de-duplication; the
distinct raw column names "A" and "a " both normalize to "a", so the
normalized column-name list can contain duplicates, contrary to the claim. -/
theorem C9_counterexample :
    Kavach.normalizeColumns ["A", "a "] = ["a", "a"]
      ∧ ¬ (Kavach.normalizeColumns ["A", "a "]).Nodup := by
  constructor
  · decide
  · decide

/-- C9 (amended): column-name normalization lower-cases and trims every
column name, keeping one output name per input column (no de-duplication, so
duplicates may remain), and is idempotent. -/
theorem C9_normalize_columns (columns : List String) :
    (Kavach.normalizeColumns columns).length = columns.length
      ∧ Kavach.normalizeColumns (Kavach.normalizeColumns columns)
          = Kavach.normalizeColumns columns := by
  constructor
  · exact List.length_map _ _
  · unfold Kavach.normalizeColumns
    rw [List.map_map]
    exact List.map_congr_left (fun s _ => Kavach.normName_idem s)

/-- C6 counterexample: the empty parsed table is empty after trimming, yet
the post-parse normalization does not raise — it returns a six-column empty
canonical table — refuting the claim that an error is raised iff the table
is empty after dropping fully-null rows and columns. -/
theorem C6_counterexample :
    Kavach.isEmptyTable (Kavach.dropTrim ([] : Kavach.Table)) = true
      ∧ Kavach.normalizeParsed ([] : Kavach.Table)
        = Except.ok [⟨"country", []⟩, ⟨"user_id", []⟩, ⟨"timestamp", []⟩,
            ⟨"amount", []⟩, ⟨"category", []⟩, ⟨"merchant", []⟩] :=
  ⟨rfl, rfl⟩

/-- C6 (amended): the post-parse Schema Normalizer raises no error on
emptiness — the empty-after-trimming table of the counterexample yields an
empty canonical table — and on every parsed table whose trimmed column
names are pairwise distinct after normalization (the domain on which the
duplicate-label accidents of ingestion.py:249 cannot fire, see
normalizeParsed) it never raises and returns a best-effort canonical table
containing all six canonical columns with defaults substituted. -/
theorem C6_normalize_never_raises (t : Kavach.Table)
    (_hnd : ((Kavach.colNames (Kavach.dropTrim t)).map Kavach.normName).Nodup) :
    ∃ out, Kavach.normalizeParsed t = Except.ok out
      ∧ ∀ n ∈ Kavach.canonicalNames, Kavach.hasCol out n = true := by
  refine ⟨_, rfl, ?_⟩
  intro n hn
  show Kavach.hasCol (Kavach.inferColumns (Kavach.dropTrim t)) n = true
  unfold Kavach.inferColumns
  fin_cases hn
  · exact Kavach.stepFinalDefaults_has_user _
  · exact Kavach.stepFinalDefaults_mono _ _
      (Kavach.stepAmountDefault_mono _ _ (Kavach.stepTimestampDefault_has _))
  · exact Kavach.stepFinalDefaults_mono _ _ (Kavach.stepAmountDefault_has _)
  · exact Kavach.stepFinalDefaults_has_category _
  · exact Kavach.stepFinalDefaults_has_merchant _
  · exact Kavach.stepFinalDefaults_has_country _

/-- C6 witness: a concrete one-row table with distinct normalized column
names normalizes without an error to a table holding all six canonical
columns. -/
theorem C6_witness :
    ∃ out, Kavach.normalizeParsed Kavach.c7table = Except.ok out
      ∧ ∀ n ∈ Kavach.canonicalNames, Kavach.hasCol out n = true :=
  C6_normalize_never_raises Kavach.c7table (by decide)

/-- C7: the Schema Normalizer's column inference is idempotent on canonical
output: a table whose columns are exactly the six canonical names (no
duplicates, any order), rectangular, with non-null canonical-typed values,
is returned unchanged by _infer_columns. -/
theorem C7_inference_idempotent (t : Kavach.Table)
    (h : Kavach.IsCanonicalTable t) : Kavach.inferColumns t = t := by
  unfold Kavach.inferColumns
  rw [Kavach.stepNormalizeNames_canonical h, Kavach.stepTimestamp_canonical h,
    Kavach.stepAmount_canonical h, Kavach.stepCategory_canonical h,
    Kavach.stepMerchant_canonical h, Kavach.stepCountry_canonical h,
    Kavach.stepUser_canonical h, Kavach.stepTimestampDefault_canonical h,
    Kavach.stepAmountDefault_canonical h, Kavach.stepFinalDefaults_canonical h]

/-- C7 witness: a concrete one-row canonical table is canonical and is a
fixed point of the inference. -/
theorem C7_witness : Kavach.inferColumns Kavach.c7table = Kavach.c7table :=
  C7_inference_idempotent Kavach.c7table
    (by unfold Kavach.IsCanonicalTable; decide)

/-- C8 counterexample: on the table with the single text column c1 =
["a", "b"], the category source is c1 (it trivially has the most distinct
values among text columns), and there is no other text column, so under the
claim merchant must come from a different column (the "Unknown" default);
the code instead copies c1 — the same column as category — because its
candidate set also contains the derived category column and performs no
exclusion. -/
theorem C8_counterexample :
    Kavach.getVals (Kavach.inferColumns Kavach.c8input) "merchant"
        = [Kavach.Val.str "a", Kavach.Val.str "b"]
      ∧ Kavach.getVals Kavach.c8input "c1" = [Kavach.Val.str "a", Kavach.Val.str "b"]
      ∧ Kavach.specCategorySource Kavach.c8input = some "c1"
      ∧ Kavach.specMerchantCandidates Kavach.c8input = [] := by
  refine ⟨by decide, rfl, by decide, by decide⟩

/-- C8 (amended): on a frame without duplicate column names (the domain on
which df[name] is a Series — pandas raises on a duplicated label, see
stepMerchant), when no merchant alias matches and no merchant column
exists, the Schema Normalizer takes merchant from an object column with the
most distinct values in the CURRENT frame — the candidate set includes the
derived category column and the category source is not excluded; ties go to
the first such column in column order. -/
theorem C8_merchant_from_max_cardinality (t : Kavach.Table)
    (h1 : Kavach.pickColumn t Kavach.merchantAliases = none)
    (h2 : Kavach.hasCol t "merchant" = false)
    (h3 : Kavach.textColNames t ≠ [])
    (_h4 : (Kavach.colNames t).Nodup) :
    ∃ b ∈ Kavach.textColNames t,
      (∀ c ∈ Kavach.textColNames t,
          Kavach.nuniqueDropna (Kavach.getVals t c)
            ≤ Kavach.nuniqueDropna (Kavach.getVals t b))
        ∧ Kavach.stepMerchant t
            = Kavach.setCol t "merchant"
                ((Kavach.getVals t b).map
                  (Kavach.fillnaVal (Kavach.Val.str "Unknown"))) := by
  unfold Kavach.stepMerchant
  rw [h1, h2]
  simp only [Bool.false_eq_true, if_false]
  obtain ⟨a, l, hl⟩ := List.exists_cons_of_ne_nil h3
  rw [hl]
  obtain ⟨b, hfold, hmem, hmax⟩ :=
    Kavach.firstArgmaxBy_spec
      (fun c => (Kavach.nuniqueDropna (Kavach.getVals t c) : Rat)) a l
  rw [hfold]
  refine ⟨b, hmem, fun c hc => ?_, rfl⟩
  exact_mod_cast hmax c hc

/-- C8 witness: at the two-text-column frame (source column plus derived
category column, both with two distinct values) the merchant step picks the
first maximal-cardinality object column. -/
theorem C8_witness :
    ∃ b ∈ Kavach.textColNames Kavach.c8wit,
      (∀ c ∈ Kavach.textColNames Kavach.c8wit,
          Kavach.nuniqueDropna (Kavach.getVals Kavach.c8wit c)
            ≤ Kavach.nuniqueDropna (Kavach.getVals Kavach.c8wit b))
        ∧ Kavach.stepMerchant Kavach.c8wit
            = Kavach.setCol Kavach.c8wit "merchant"
                ((Kavach.getVals Kavach.c8wit b).map
                  (Kavach.fillnaVal (Kavach.Val.str "Unknown"))) :=
  C8_merchant_from_max_cardinality Kavach.c8wit (by decide) (by decide) (by decide)
    (by decide)

/-- C10: a transaction with fewer than 3 same-user transactions up to and
including it in (user_id, timestamp)-sorted order has null rolling mean and
rolling standard deviation, a null z-score, and is_amount_anomaly false (a
null z-score never compares as exceeding 3.0); in particular the first two
transactions of every user are never flagged as amount anomalies. -/
theorem C10_early_rows_not_anomalous (input : List Kavach.CanonRow) (i : Nat)
    (hi : i < (Kavach.engineerTransactionFeatures input).length)
    (hpos : Kavach.userPos (Kavach.sortByUserTime (Kavach.dropBadTs input)) i < 3) :
    ((Kavach.engineerTransactionFeatures input).getD i default).rolling_mean_amount = none
      ∧ ((Kavach.engineerTransactionFeatures input).getD i default).rolling_std_amount = none
      ∧ ((Kavach.engineerTransactionFeatures input).getD i default).zscore_amount = none
      ∧ ((Kavach.engineerTransactionFeatures input).getD i default).is_amount_anomaly
          = false := by
  rw [Kavach.engineer_getD input i hi, Kavach.mkFeatRow_mean, Kavach.mkFeatRow_std,
    Kavach.mkFeatRow_zscore, Kavach.mkFeatRow_anomaly]
  have hm := (Kavach.rollingMean_eq_none_iff _ i).mpr hpos
  exact ⟨hm, (Kavach.rollingStd_eq_none_iff _ i).mpr hpos,
    Kavach.zscore_none_of_mean_none _ i hm,
    Kavach.anomaly_false_of_mean_none _ i hm⟩

/-- C10 witness: the first row of the concrete 3-row single-user dataset has
null rolling statistics and is not flagged as an amount anomaly. -/
theorem C10_witness :
    ((Kavach.engineerTransactionFeatures Kavach.c4input).getD 0 default).rolling_mean_amount
        = none
      ∧ ((Kavach.engineerTransactionFeatures Kavach.c4input).getD 0
          default).rolling_std_amount = none
      ∧ ((Kavach.engineerTransactionFeatures Kavach.c4input).getD 0 default).zscore_amount
          = none
      ∧ ((Kavach.engineerTransactionFeatures Kavach.c4input).getD 0
          default).is_amount_anomaly = false :=
  C10_early_rows_not_anomalous Kavach.c4input 0
    (by rw [Kavach.engineer_length, Kavach.c4rows_sorted]; decide)
    (by rw [Kavach.c4rows_sorted]; decide)

/-- C4: rolling statistics use a trailing same-user window of at most the
last 10 transactions in (user_id, timestamp)-sorted order (the window size
at a row is min(10, its user-group position)) and are null until at least 3
observations are available (nullness of the rolling mean and standard
deviation at a row is equivalent to its user-group position being below 3);
for the single-user table with amounts [100, 100, 100] the 3rd row is the
first with non-null rolling mean (100) and std (0), and has zscore_amount 0
and is_amount_anomaly false. -/
theorem C4_rolling_statistics (input : List Kavach.CanonRow) (i : Nat)
    (hi : i < (Kavach.engineerTransactionFeatures input).length) :
    (((Kavach.engineerTransactionFeatures input).getD i default).rolling_mean_amount = none
        ↔ Kavach.userPos (Kavach.sortByUserTime (Kavach.dropBadTs input)) i < 3)
      ∧ (((Kavach.engineerTransactionFeatures input).getD i default).rolling_std_amount
            = none
          ↔ Kavach.userPos (Kavach.sortByUserTime (Kavach.dropBadTs input)) i < 3)
      ∧ (Kavach.windowAmounts (Kavach.sortByUserTime (Kavach.dropBadTs input)) i).length
          = min 10 (Kavach.userPos (Kavach.sortByUserTime (Kavach.dropBadTs input)) i)
      ∧ (Kavach.engineerTransactionFeatures Kavach.c4input).map (·.rolling_mean_amount)
          = [none, none, some 100]
      ∧ (Kavach.engineerTransactionFeatures Kavach.c4input).map (·.rolling_std_amount)
          = [none, none, some 0]
      ∧ (Kavach.engineerTransactionFeatures Kavach.c4input).map (·.zscore_amount)
          = [none, none, some 0]
      ∧ (Kavach.engineerTransactionFeatures Kavach.c4input).map (·.is_amount_anomaly)
          = [false, false, false] := by
  refine ⟨?_, ?_, Kavach.windowAmounts_length _ i, ?_, ?_, ?_, ?_⟩
  · rw [Kavach.engineer_getD input i hi, Kavach.mkFeatRow_mean]
    exact Kavach.rollingMean_eq_none_iff _ i
  · rw [Kavach.engineer_getD input i hi, Kavach.mkFeatRow_std]
    exact Kavach.rollingStd_eq_none_iff _ i
  · rw [Kavach.c4_engineer]
    simp only [List.map_cons, List.map_nil, Kavach.mkFeatRow_mean]
    rw [Kavach.c4_mean0, Kavach.c4_mean1, Kavach.c4_mean2]
  · rw [Kavach.c4_engineer]
    simp only [List.map_cons, List.map_nil, Kavach.mkFeatRow_std]
    rw [Kavach.c4_std0, Kavach.c4_std1, Kavach.c4_std2]
  · rw [Kavach.c4_engineer]
    simp only [List.map_cons, List.map_nil, Kavach.mkFeatRow_zscore]
    rw [Kavach.c4_z0, Kavach.c4_z1, Kavach.c4_z2]
  · rw [Kavach.c4_engineer]
    simp only [List.map_cons, List.map_nil, Kavach.mkFeatRow_anomaly]
    rw [Kavach.c4_anom0, Kavach.c4_anom1, Kavach.c4_anom2]

/-- C1: with no ModelBundle the Risk Scorer sets fraud_score to the
rule-based flag cast to 0.0/1.0 and model_fraud_flag to the rule-based flag,
on every row of every feature table; for the two-row table with
rule_based_fraud_flag = [true, false] the scores are exactly [1.0, 0.0] and
the model flags equal the rule flags. -/
theorem C1_no_model_fallback (df : List Kavach.FeatRow) :
    (Kavach.scoreTransactionsWithModel df none).map (·.fraud_score)
        = df.map (fun r => some (if r.rule_based_fraud_flag then (1 : Rat) else 0))
      ∧ (Kavach.scoreTransactionsWithModel df none).map (·.model_fraud_flag)
        = df.map (·.rule_based_fraud_flag)
      ∧ (Kavach.scoreTransactionsWithModel Kavach.c1rows none).map (·.fraud_score)
        = [some 1, some 0]
      ∧ (Kavach.scoreTransactionsWithModel Kavach.c1rows none).map (·.model_fraud_flag)
        = [true, false] := by
  refine ⟨?_, ?_, by decide, by decide⟩
  · rw [Kavach.scoreTransactionsWithModel, List.map_map]
    rfl
  · rw [Kavach.scoreTransactionsWithModel, List.map_map]
    rfl

/-- C2: the fraud table contains exactly the rows satisfying
rule_based_fraud_flag OR model_fraud_flag OR fraud_score > 0.5 (with their
original ids), sorted descending by fraud score with a missing score
treated as 0; empty input yields empty output (the function is total, so it
never raises); for the 3-row table with scores [0.2, 0.6, 0.9] and all
flags false the output is exactly the 0.9 row then the 0.6 row. -/
theorem C2_fraud_table_filter_sort (rows : List Kavach.ScoredTxn) :
    (Kavach.buildFraudTable rows).Perm (Kavach.flaggedCases rows)
      ∧ List.Sorted Kavach.caseOrder (Kavach.buildFraudTable rows)
      ∧ Kavach.buildFraudTable [] = []
      ∧ (Kavach.buildFraudTable Kavach.c2rows).map (fun c => (c.id, c.fraud_score))
          = [(2, some ((9 : Rat) / 10)), (1, some ((3 : Rat) / 5))] := by
  refine ⟨?_, ?_, rfl, ?_⟩
  · unfold Kavach.buildFraudTable
    by_cases h : rows.isEmpty
    · rw [if_pos h]
      cases rows with
      | nil => exact List.Perm.refl _
      | cons a l => simp at h
    · rw [if_neg h]
      exact List.perm_insertionSort _ _
  · unfold Kavach.buildFraudTable
    by_cases h : rows.isEmpty
    · rw [if_pos h]
      exact List.sorted_nil
    · rw [if_neg h]
      exact List.sorted_insertionSort _ _
  · have hev : (Kavach.buildFraudTable Kavach.c2rows).map (fun c => (c.id, c.fraud_score))
        = [(2, some (mkRat 9 10)), (1, some (mkRat 3 5))] := by decide
    rw [hev, Rat.mkRat_eq_div, Rat.mkRat_eq_div]
    norm_num

/-- C3 counterexample: in the 13-row dataset with user-day counts 7 and 6,
the code computes the 0.9 quantile over the per-row velocity series (7.0),
so no row is flagged; the claim's threshold, the 0.9 quantile over the
per-user-per-day counts [7, 6], is 6.9 = max(5, 6.9), which the first row's
count 7 exceeds, so the claim requires velocity_flag = true there. -/
theorem C3_counterexample :
    (Kavach.engineerTransactionFeatures Kavach.c3input).map (·.velocity_flag)
        = List.replicate 13 false
      ∧ ((Kavach.engineerTransactionFeatures Kavach.c3input).getD 0
          default).user_tx_velocity_per_day = 7
      ∧ Kavach.specVelocityThreshold
          (Kavach.sortByUserTime (Kavach.dropBadTs Kavach.c3input)) < 7 := by
  refine ⟨Kavach.c3_engineer_flags, ?_, ?_⟩
  · have hi : 0 < (Kavach.engineerTransactionFeatures Kavach.c3input).length := by
      rw [Kavach.engineer_length, Kavach.c3rows_sorted]
      decide
    rw [Kavach.engineer_getD Kavach.c3input 0 hi, Kavach.mkFeatRow_velocity,
      Kavach.c3rows_sorted]
    decide
  · rw [Kavach.c3rows_sorted, Kavach.c3_thr_spec]
    norm_num

/-- C3 (amended): the Feature Engineer sets velocity_flag on a row iff its
count of same-user same-calendar-date transactions strictly exceeds
max(5, q) where q is the 90th percentile (pandas linear interpolation) of
the per-transaction velocity series — each user-day count appearing once per
transaction of that user-day, not once per (user, day) pair; consequently,
if every user has at most 4 transactions on every single day, velocity_flag
is false on every output row. -/
theorem C3_velocity_threshold (input : List Kavach.CanonRow) (i : Nat)
    (hi : i < (Kavach.engineerTransactionFeatures input).length) :
    (((Kavach.engineerTransactionFeatures input).getD i default).velocity_flag = true
        ↔ Kavach.velocityThreshold (Kavach.sortByUserTime (Kavach.dropBadTs input))
            < (((Kavach.engineerTransactionFeatures input).getD i
                default).user_tx_velocity_per_day : Rat))
      ∧ ((∀ u d, Kavach.userDayCount (Kavach.dropBadTs input) u d ≤ 4)
          → ((Kavach.engineerTransactionFeatures input).getD i default).velocity_flag
              = false) := by
  rw [Kavach.engineer_getD input i hi, Kavach.mkFeatRow_velflag,
    Kavach.mkFeatRow_velocity]
  constructor
  · exact decide_eq_true_iff
  · intro hcap
    apply decide_eq_false
    intro hlt
    have hperm : (Kavach.sortByUserTime (Kavach.dropBadTs input)).Perm
        (Kavach.dropBadTs input) := List.perm_insertionSort _ _
    have hcnt : Kavach.userDayCount (Kavach.sortByUserTime (Kavach.dropBadTs input))
        ((Kavach.sortByUserTime (Kavach.dropBadTs input)).getD i default).user_id
        (Kavach.txDate
          (((Kavach.sortByUserTime (Kavach.dropBadTs input)).getD i default).ts)) ≤ 4 := by
      rw [Kavach.userDayCount_perm _ _ hperm]
      exact hcap _ _
    have hc4 : ((Kavach.userDayCount (Kavach.sortByUserTime (Kavach.dropBadTs input))
        ((Kavach.sortByUserTime (Kavach.dropBadTs input)).getD i default).user_id
        (Kavach.txDate
          (((Kavach.sortByUserTime (Kavach.dropBadTs input)).getD i default).ts)) : Nat)
          : Rat) ≤ 4 := by
      exact_mod_cast hcnt
    have h5 : (5 : Rat) ≤ Kavach.velocityThreshold
        (Kavach.sortByUserTime (Kavach.dropBadTs input)) := le_max_left _ _
    linarith

/-- C3 witness: on a single-row dataset every user has at most 4
transactions per day, and the velocity flag of the only row is false. -/
theorem C3_witness :
    ((Kavach.engineerTransactionFeatures Kavach.c3small).getD 0 default).velocity_flag
      = false :=
  (C3_velocity_threshold Kavach.c3small 0
      (by rw [Kavach.engineer_length]; decide)).2
    (fun u d => le_trans (List.length_filter_le _ _)
      (by decide : (Kavach.dropBadTs Kavach.c3small).length ≤ 4))

/-- C4 witness: instantiating the rolling-statistics theorem at the 3rd row
of the concrete 3-row dataset. -/
theorem C4_witness :
    (((Kavach.engineerTransactionFeatures Kavach.c4input).getD 2
          default).rolling_mean_amount = none
        ↔ Kavach.userPos (Kavach.sortByUserTime (Kavach.dropBadTs Kavach.c4input)) 2 < 3)
      ∧ (((Kavach.engineerTransactionFeatures Kavach.c4input).getD 2
            default).rolling_std_amount = none
          ↔ Kavach.userPos (Kavach.sortByUserTime (Kavach.dropBadTs Kavach.c4input)) 2 < 3)
      ∧ (Kavach.windowAmounts (Kavach.sortByUserTime (Kavach.dropBadTs Kavach.c4input))
            2).length
          = min 10 (Kavach.userPos
              (Kavach.sortByUserTime (Kavach.dropBadTs Kavach.c4input)) 2)
      ∧ (Kavach.engineerTransactionFeatures Kavach.c4input).map (·.rolling_mean_amount)
          = [none, none, some 100]
      ∧ (Kavach.engineerTransactionFeatures Kavach.c4input).map (·.rolling_std_amount)
          = [none, none, some 0]
      ∧ (Kavach.engineerTransactionFeatures Kavach.c4input).map (·.zscore_amount)
          = [none, none, some 0]
      ∧ (Kavach.engineerTransactionFeatures Kavach.c4input).map (·.is_amount_anomaly)
          = [false, false, false] :=
  C4_rolling_statistics Kavach.c4input 2
    (by rw [Kavach.engineer_length, Kavach.c4rows_sorted]; decide)
